import Mathlib

/-!
Verification of the streamed-event reducer of `deployment/agent_client.py`
(`query_agent`, lines 62-123) and its second copy in
`deployment/streamlit_app.py` (`send_prompt`, lines 285-311).

The reducer walks a list of dynamically typed (JSON-like) event values with
Python dictionary/string/list operations.  We embed the Python value space
as `PyVal`, the exceptions those operations can raise as `PyErr`, and each
line of the two parsing loops as a small `Except`-valued function, keeping
the source's evaluation order (a raised exception aborts the loop).
-/

/-- Values of the dynamically typed (JSON-like) data the reducer walks:
Python `None`, booleans, integers, strings, lists, and string-keyed
dictionaries. -/
inductive PyVal : Type where
  | none : PyVal
  | bool : Bool → PyVal
  | int : Int → PyVal
  | str : String → PyVal
  | list : List PyVal → PyVal
  | dict : List (String × PyVal) → PyVal

/-- Exceptions the reducer's dictionary traversal can raise. -/
inductive PyErr : Type where
  | attributeError : PyErr
  | typeError : PyErr
  | keyError : PyErr
deriving DecidableEq

/-- Association-list lookup for dictionaries (first binding wins). -/
def dlookup : List (String × PyVal) → String → Option PyVal
  | [], _ => Option.none
  | (k, v) :: kvs, key => if k = key then Option.some v else dlookup kvs key

/-- Substring test, modelling Python `pat in s` on strings. -/
def strContains (s pat : String) : Bool :=
  if pat = "" then true else decide (2 ≤ (s.splitOn pat).length)

/-- First `n` characters of a string, modelling Python `s[:n]`. -/
def strTake (s : String) (n : Nat) : String := String.mk (s.data.take n)

/-- Python truthiness of a value. -/
def pyTruthy : PyVal → Bool
  | .none => false
  | .bool b => b
  | .int n => n != 0
  | .str s => s != ""
  | .list xs => !xs.isEmpty
  | .dict kvs => !kvs.isEmpty

/-- Python `==` comparison of a value against a string literal. -/
def pyEqStr : PyVal → String → Bool
  | .str s, t => s == t
  | _, _ => false

/-- Python `v.get(key, dflt)`: dictionary lookup with a default; any
non-dictionary receiver has no `get` attribute (AttributeError). -/
def pyGet (v : PyVal) (key : String) (dflt : PyVal) : Except PyErr PyVal :=
  match v with
  | .dict kvs => .ok ((dlookup kvs key).getD dflt)
  | _ => .error .attributeError

/-- Python `key in v` for a string key: key membership on dictionaries,
substring test on strings, element equality on lists; other receivers are
not iterable (TypeError). -/
def pyContains (v : PyVal) (key : String) : Except PyErr Bool :=
  match v with
  | .dict kvs => .ok (dlookup kvs key).isSome
  | .str s => .ok (strContains s key)
  | .list xs => .ok (xs.any (fun x => pyEqStr x key))
  | _ => .error .typeError

/-- Python `v[key]` for a string key: only dictionaries support string
subscripts (a missing key is a KeyError; strings and lists want integer
indices, a TypeError). -/
def pySubscr (v : PyVal) (key : String) : Except PyErr PyVal :=
  match v with
  | .dict kvs =>
    match dlookup kvs key with
    | Option.some x => .ok x
    | Option.none => .error .keyError
  | _ => .error .typeError

/-- Python `for x in v`: lists yield their elements, strings yield
one-character strings, dictionaries yield their keys; other values are not
iterable (TypeError). -/
def pyIter (v : PyVal) : Except PyErr (List PyVal) :=
  match v with
  | .list xs => .ok xs
  | .str s => .ok (s.data.map (fun c => PyVal.str (String.mk [c])))
  | .dict kvs => .ok (kvs.map (fun kv => PyVal.str kv.fst))
  | _ => .error .typeError

/-- Python `v[:200]`: slicing of strings and lists; other values do not
support slices (TypeError). -/
def pySlice200 : PyVal → Except PyErr PyVal
  | .str s => .ok (.str (strTake s 200))
  | .list xs => .ok (.list (xs.take 200))
  | _ => .error .typeError

/-- Left fold of an exception-raising step over a list, stopping at the
first raised exception — the shape of every `for` loop in the reducer. -/
def foldE {α : Type} (f : α → PyVal → Except PyErr α) : α → List PyVal → Except PyErr α
  | a, [] => .ok a
  | a, x :: xs =>
    match f a x with
    | .ok b => foldE f b xs
    | .error e => .error e

/-- One part of a model-role event, from `agent_client.py` lines 100-101
(and the identical `streamlit_app.py` lines 291-292):
`if "text" in part: response_text = part["text"]`. -/
def processPart (rt : PyVal) (part : PyVal) : Except PyErr PyVal :=
  match pyContains part "text" with
  | .ok true => pySubscr part "text"
  | .ok false => .ok rt
  | .error e => .error e

/-- The model-text branch, shared verbatim by the two loop copies
(`agent_client.py` lines 98-101, `streamlit_app.py` lines 289-292):
`if content.get("role") == "model" and "parts" in content: for part in
content["parts"]: ...`. -/
def eventText (content : PyVal) (rt : PyVal) : Except PyErr PyVal :=
  match pyGet content "role" .none with
  | .error e => .error e
  | .ok role =>
    if pyEqStr role "model" then
      match pyContains content "parts" with
      | .error e => .error e
      | .ok false => .ok rt
      | .ok true =>
        match pySubscr content "parts" with
        | .error e => .error e
        | .ok partsVal =>
          match pyIter partsVal with
          | .error e => .error e
          | .ok parts => foldE processPart rt parts
    else .ok rt

/-- The citation built from one context dictionary by `agent_client.py`
lines 112-116: `source_uri` defaults to `"RAG Corpus"`, `text` defaults to
`""` and is sliced to its first 200 characters, `distance` defaults to
`0`. -/
def mkCitation (kvs : List (String × PyVal)) : Except PyErr PyVal :=
  match pySlice200 ((dlookup kvs "text").getD (.str "")) with
  | .error e => .error e
  | .ok t =>
    .ok (.dict [("source_uri", (dlookup kvs "source_uri").getD (.str "RAG Corpus")),
                ("text", t),
                ("distance", (dlookup kvs "distance").getD (.int 0))])

/-- One context in the `agent_client.py` copy (lines 110-116):
non-dictionary contexts are skipped; a dictionary context is coerced by
`mkCitation` and appended. -/
def processCtx (acc : List PyVal) (ctx : PyVal) : Except PyErr (List PyVal) :=
  match ctx with
  | .dict kvs =>
    match mkCitation kvs with
    | .error e => .error e
    | .ok c => .ok (acc ++ [c])
  | _ => .ok acc

/-- One context in the `streamlit_app.py` copy (lines 300-308): it also
requires a `"text"` key before appending, and the citation's `distance`
defaults to `""` instead of `0` (with the keys in a different order). -/
def processCtxSt (acc : List PyVal) (ctx : PyVal) : Except PyErr (List PyVal) :=
  match ctx with
  | .dict kvs =>
    if (dlookup kvs "text").isSome then
      match pySlice200 ((dlookup kvs "text").getD (.str "")) with
      | .error e => .error e
      | .ok t =>
        .ok (acc ++ [.dict [("text", t),
                            ("source_uri", (dlookup kvs "source_uri").getD (.str "RAG Corpus")),
                            ("distance", (dlookup kvs "distance").getD (.str ""))]])
    else .ok acc
  | _ => .ok acc

/-- One part of a user-role event (`agent_client.py` lines 105-116,
`streamlit_app.py` lines 295-308), parameterised by the per-context step —
the only place the two copies differ. -/
def procCitePartWith (pc : List PyVal → PyVal → Except PyErr (List PyVal))
    (acc : List PyVal) (part : PyVal) : Except PyErr (List PyVal) :=
  match pyContains part "function_response" with
  | .error e => .error e
  | .ok false => .ok acc
  | .ok true =>
    match pySubscr part "function_response" with
    | .error e => .error e
    | .ok fr =>
      match pyContains fr "response" with
      | .error e => .error e
      | .ok false => .ok acc
      | .ok true =>
        match pySubscr fr "response" with
        | .error e => .error e
        | .ok resp =>
          match resp with
          | .dict rkvs =>
            match pyIter ((dlookup rkvs "contexts").getD (.list [])) with
            | .error e => .error e
            | .ok ctxs => foldE pc acc ctxs
          | _ => .ok acc

/-- The citation branch of one event's content
(`if content.get("role") == "user" and "parts" in content: ...`),
parameterised by the per-context step. -/
def eventCitesWith (pc : List PyVal → PyVal → Except PyErr (List PyVal))
    (content : PyVal) (cs : List PyVal) : Except PyErr (List PyVal) :=
  match pyGet content "role" .none with
  | .error e => .error e
  | .ok role =>
    if pyEqStr role "user" then
      match pyContains content "parts" with
      | .error e => .error e
      | .ok false => .ok cs
      | .ok true =>
        match pySubscr content "parts" with
        | .error e => .error e
        | .ok partsVal =>
          match pyIter partsVal with
          | .error e => .error e
          | .ok parts => foldE (procCitePartWith pc) cs parts
    else .ok cs

/-- The two accumulator slots of the single-pass fold. -/
structure RState : Type where
  response_text : PyVal
  citations : List PyVal

/-- Initial accumulators: `response_text = ""`, `citations = []`. -/
def initState : RState := ⟨.str "", []⟩

/-- Processing of one streamed event, parameterised by the per-context
step: events that are not dictionaries, or carry no `"content"` key, are
skipped; otherwise the model-text branch runs, then the citation branch. -/
def processEventWith (pc : List PyVal → PyVal → Except PyErr (List PyVal))
    (st : RState) (event : PyVal) : Except PyErr RState :=
  match event with
  | .dict ekvs =>
    match dlookup ekvs "content" with
    | Option.some content =>
      match eventText content st.response_text with
      | .error e => .error e
      | .ok rt =>
        match eventCitesWith pc content st.citations with
        | .error e => .error e
        | .ok cs => .ok ⟨rt, cs⟩
    | Option.none => .ok st
  | _ => .ok st

/-- The event-parsing loop of `agent_client.query_agent` (lines 91-116). -/
def processEvent : RState → PyVal → Except PyErr RState := processEventWith processCtx

/-- The event-parsing loop of `streamlit_app.send_prompt` (lines 285-308). -/
def processEventSt : RState → PyVal → Except PyErr RState := processEventWith processCtxSt

/-- The whole parsing loop of `query_agent` over the collected events. -/
def reduceEvents (events : List PyVal) : Except PyErr RState :=
  foldE processEvent initState events

/-- The whole parsing loop of `send_prompt` over the collected events. -/
def reduceEventsSt (events : List PyVal) : Except PyErr RState :=
  foldE processEventSt initState events

/-- The dictionary `query_agent` returns (lines 118-123). -/
structure QueryResult : Type where
  response : PyVal
  citations : List PyVal
  events : List PyVal
  session_id : String

/-- The post-loop assembly of `query_agent` (lines 118-123): a falsy
accumulated `response_text` is replaced by the sentinel
`"No response text found"` (`response_text or "No response text found"`). -/
def assembleResult (events : List PyVal) (session_id : String) : Except PyErr QueryResult :=
  match reduceEvents events with
  | .error e => .error e
  | .ok st =>
    .ok ⟨if pyTruthy st.response_text then st.response_text else .str "No response text found",
         st.citations, events, session_id⟩

/-- `query_agent` after session resolution (lines 68-123).  The streaming
loop's outcome is the list of events appended before the stream finished,
plus, when `stream_query` raised, the exception's message: the `except`
branch (lines 78-84) returns the degraded result without re-raising;
otherwise the collected events are parsed and assembled. -/
def query_agent (collected : List PyVal) (failure : Option String) (session_id : String) :
    Except PyErr QueryResult :=
  match failure with
  | Option.some msg =>
    .ok ⟨.str ("Error querying agent: " ++ msg), [], collected, session_id⟩
  | Option.none => assembleResult collected session_id

/-- Event `{content: {role: "model", parts: [{text: t}]}}`. -/
def mkModelTextEvent (t : PyVal) : PyVal :=
  .dict [("content", .dict [("role", .str "model"),
                            ("parts", .list [.dict [("text", t)]])])]

/-- Event `{content: {role: r, parts: [{function_response: {response:
{contexts: ctxs}}}]}}`. -/
def mkFuncRespEvent (r : String) (ctxs : List PyVal) : PyVal :=
  .dict [("content", .dict [("role", .str r),
    ("parts", .list [.dict [("function_response",
      .dict [("response", .dict [("contexts", .list ctxs)])])]])])]

/-- Citations contributed by a single event: the `agent_client.py`
citation branch run from an empty accumulator. -/
def eventCitesOf (event : PyVal) : List PyVal :=
  match event with
  | .dict ekvs =>
    match dlookup ekvs "content" with
    | Option.some content =>
      match eventCitesWith processCtx content [] with
      | .ok cs => cs
      | .error _ => []
    | Option.none => []
  | _ => []

/-- Whether `Except` holds a success (the reduction raised nothing). -/
def exceptIsOk {α : Type} : Except PyErr α → Bool
  | .ok _ => true
  | .error _ => false

/-- Splitting a fold across an append: the loop over `xs ++ ys` runs the
loop over `xs` and continues over `ys` unless an exception stopped it. -/
theorem foldE_append {α : Type} (f : α → PyVal → Except PyErr α) (a : α) (xs ys : List PyVal) :
    foldE f a (xs ++ ys) =
      match foldE f a xs with
      | .ok b => foldE f b ys
      | .error e => .error e := by
  induction xs generalizing a with
  | nil => rfl
  | cons x xs ih =>
    cases h : f a x with
    | ok b =>
      simp only [List.cons_append, foldE, h]
      exact ih b
    | error e =>
      simp only [List.cons_append, foldE, h]

/-- A canonical model-text event overwrites the text accumulator with its
own text and leaves the citation accumulator alone. -/
theorem processEvent_mkModelText (st : RState) (v : PyVal) :
    processEvent st (mkModelTextEvent v) = .ok ⟨v, st.citations⟩ := rfl

/-- The citation accumulator is threaded append-only: running a step from
`acc` equals running it from `[]` and prepending `acc`. -/
def isHomStep (f : List PyVal → PyVal → Except PyErr (List PyVal)) : Prop :=
  ∀ acc x, f acc x = Except.map (fun d => acc ++ d) (f [] x)

theorem hom_processCtx : isHomStep processCtx := by
  intro acc x
  cases x with
  | dict kvs =>
    simp only [processCtx]
    cases mkCitation kvs <;> simp [Except.map]
  | none => simp [processCtx, Except.map]
  | bool b => simp [processCtx, Except.map]
  | int n => simp [processCtx, Except.map]
  | str s => simp [processCtx, Except.map]
  | list xs => simp [processCtx, Except.map]

theorem foldE_hom {f : List PyVal → PyVal → Except PyErr (List PyVal)} (hf : isHomStep f)
    (xs : List PyVal) : ∀ acc : List PyVal,
    foldE f acc xs = Except.map (fun d => acc ++ d) (foldE f [] xs) := by
  induction xs with
  | nil => intro acc; simp [foldE, Except.map]
  | cons x xs ih =>
    intro acc
    simp only [foldE]
    rw [hf acc x]
    cases h : f [] x with
    | error e => simp [Except.map]
    | ok d =>
      simp only [Except.map]
      rw [ih (acc ++ d), ih d]
      cases foldE f [] xs <;> simp [Except.map]

theorem hom_procCitePartWith {pc : List PyVal → PyVal → Except PyErr (List PyVal)}
    (hpc : isHomStep pc) : isHomStep (procCitePartWith pc) := by
  intro acc x
  unfold procCitePartWith
  repeat' split
  all_goals first
  | exact foldE_hom hpc _ acc
  | simp [Except.map]

theorem hom_eventCitesWith {pc : List PyVal → PyVal → Except PyErr (List PyVal)}
    (hpc : isHomStep pc) (content : PyVal) (cs : List PyVal) :
    eventCitesWith pc content cs =
      Except.map (fun d => cs ++ d) (eventCitesWith pc content []) := by
  unfold eventCitesWith
  repeat' split
  all_goals first
  | exact foldE_hom (hom_procCitePartWith hpc) _ cs
  | simp [Except.map]

/-- One event appends its own citation contribution to whatever the
accumulator already holds. -/
theorem processEvent_citations (st : RState) (e : PyVal) (st' : RState)
    (h : processEvent st e = .ok st') :
    st'.citations = st.citations ++ eventCitesOf e := by
  cases e with
  | dict ekvs =>
    simp only [processEvent, processEventWith] at h
    cases hc : dlookup ekvs "content" with
    | none =>
      simp only [hc] at h
      injection h with h'
      subst h'
      simp [eventCitesOf, hc]
    | some content =>
      simp only [hc] at h
      cases ht : eventText content st.response_text with
      | error err => rw [ht] at h; simp at h
      | ok rt =>
        rw [ht] at h
        cases hcs : eventCitesWith processCtx content st.citations with
        | error err => rw [hcs] at h; simp at h
        | ok cs =>
          rw [hcs] at h
          injection h with h'
          subst h'
          have hhom := hom_eventCitesWith hom_processCtx content st.citations
          rw [hcs] at hhom
          cases hz : eventCitesWith processCtx content [] with
          | error err => rw [hz] at hhom; simp [Except.map] at hhom
          | ok d =>
            rw [hz] at hhom
            simp only [Except.map, Except.ok.injEq] at hhom
            simp only [eventCitesOf, hc, hz]
            exact hhom
  | none =>
    simp only [processEvent, processEventWith] at h
    injection h with h'; subst h'; simp [eventCitesOf]
  | bool b =>
    simp only [processEvent, processEventWith] at h
    injection h with h'; subst h'; simp [eventCitesOf]
  | int n =>
    simp only [processEvent, processEventWith] at h
    injection h with h'; subst h'; simp [eventCitesOf]
  | str s =>
    simp only [processEvent, processEventWith] at h
    injection h with h'; subst h'; simp [eventCitesOf]
  | list xs =>
    simp only [processEvent, processEventWith] at h
    injection h with h'; subst h'; simp [eventCitesOf]

/-- The citation list of a completed reduction is the concatenation, in
event order, of the per-event contributions. -/
theorem reduce_citations_decomp (events : List PyVal) :
    ∀ (st0 st : RState), foldE processEvent st0 events = .ok st →
      st.citations = st0.citations ++ (events.map eventCitesOf).flatten := by
  induction events with
  | nil =>
    intro st0 st h
    simp only [foldE] at h
    injection h with h'
    subst h'
    simp
  | cons e es ih =>
    intro st0 st h
    simp only [foldE] at h
    cases h1 : processEvent st0 e with
    | error err => rw [h1] at h; simp at h
    | ok st1 =>
      rw [h1] at h
      have hc1 := processEvent_citations st0 e st1 h1
      have hrest := ih st1 st h
      rw [hrest, hc1]
      simp [List.append_assoc]

/-- Context dictionary `{text: t, source_uri: u}`. -/
def mkTextCtx (p : String × String) : PyVal :=
  .dict [("text", .str p.1), ("source_uri", .str p.2)]

/-- The citation `agent_client.py` produces for `mkTextCtx p`. -/
def coercedCite (p : String × String) : PyVal :=
  .dict [("source_uri", .str p.2), ("text", .str (strTake p.1 200)), ("distance", .int 0)]

theorem foldE_processCtx_map (ps : List (String × String)) :
    ∀ acc, foldE processCtx acc (ps.map mkTextCtx) = .ok (acc ++ ps.map coercedCite) := by
  induction ps with
  | nil => intro acc; simp [foldE]
  | cons p ps ih =>
    intro acc
    have hstep : processCtx acc (mkTextCtx p) = .ok (acc ++ [coercedCite p]) := rfl
    simp only [List.map_cons, foldE, hstep]
    rw [ih (acc ++ [coercedCite p])]
    simp

/-- The user-role part carrying the contexts of `mkFuncRespEvent`. -/
def funcRespPart (ctxs : List PyVal) : PyVal :=
  .dict [("function_response", .dict [("response", .dict [("contexts", .list ctxs)])])]

theorem eventCitesOf_mkFuncResp (ps : List (String × String)) :
    eventCitesOf (mkFuncRespEvent "user" (ps.map mkTextCtx)) = ps.map coercedCite := by
  have h1 : foldE (procCitePartWith processCtx) [] [funcRespPart (ps.map mkTextCtx)] =
      .ok (ps.map coercedCite) := by
    simp only [foldE]
    rw [show procCitePartWith processCtx [] (funcRespPart (ps.map mkTextCtx)) =
      foldE processCtx [] (ps.map mkTextCtx) from rfl]
    rw [foldE_processCtx_map ps []]
    simp [foldE]
  rw [show eventCitesOf (mkFuncRespEvent "user" (ps.map mkTextCtx)) =
    (match foldE (procCitePartWith processCtx) [] [funcRespPart (ps.map mkTextCtx)] with
     | .ok cs => cs
     | .error _ => ([] : List PyVal)) from rfl]
  rw [h1]

/-- Contexts the reducer tolerates: non-dictionaries (skipped), and
dictionaries whose `text`, when present, is sliceable (string or list). -/
def ctxOK : PyVal → Bool
  | .dict kvs =>
    match dlookup kvs "text" with
    | Option.some (.str _) => true
    | Option.some (.list _) => true
    | Option.some _ => false
    | Option.none => true
  | _ => true

/-- Function-response payloads the reducer tolerates: a dictionary whose
`response`, when a dictionary, carries an absent or list-shaped `contexts`
of tolerated contexts. -/
def frOK : PyVal → Bool
  | .dict kvs =>
    match dlookup kvs "response" with
    | Option.some (.dict rkvs) =>
      (match dlookup rkvs "contexts" with
       | Option.some (.list ctxs) => ctxs.all ctxOK
       | Option.some _ => false
       | Option.none => true)
    | Option.some _ => true
    | Option.none => true
  | _ => false

/-- Parts of a user-role event the reducer tolerates. -/
def userPartOK : PyVal → Bool
  | .dict kvs =>
    match dlookup kvs "function_response" with
    | Option.some fr => frOK fr
    | Option.none => true
  | _ => false

/-- Parts of a model-role event the reducer tolerates: any dictionary. -/
def modelPartOK : PyVal → Bool
  | .dict _ => true
  | _ => false

/-- A `parts` field the reducer tolerates: absent, or a list whose members
all satisfy `p`. -/
def partsFieldOK (p : PyVal → Bool) : Option PyVal → Bool
  | Option.some (.list parts) => parts.all p
  | Option.some _ => false
  | Option.none => true

/-- Contents the reducer tolerates: a dictionary whose `parts` is
tolerated by whichever of the two role branches fires. -/
def contentOK : PyVal → Bool
  | .dict ckvs =>
    (if pyEqStr ((dlookup ckvs "role").getD .none) "model"
     then partsFieldOK modelPartOK (dlookup ckvs "parts") else true)
    && (if pyEqStr ((dlookup ckvs "role").getD .none) "user"
     then partsFieldOK userPartOK (dlookup ckvs "parts") else true)
  | _ => false

/-- Events the reducer tolerates without raising: non-dictionaries and
dictionaries without `content` (both skipped), and dictionaries whose
`content` is a tolerated dictionary. -/
def eventOK : PyVal → Bool
  | .dict ekvs =>
    match dlookup ekvs "content" with
    | Option.some content => contentOK content
    | Option.none => true
  | _ => true

theorem processPart_ok (rt : PyVal) (part : PyVal) (h : modelPartOK part = true) :
    ∃ rt', processPart rt part = .ok rt' := by
  cases part with
  | dict kvs =>
    cases hl : dlookup kvs "text" with
    | none => exact ⟨rt, by simp [processPart, pyContains, hl]⟩
    | some v => exact ⟨v, by simp [processPart, pyContains, pySubscr, hl]⟩
  | none => simp [modelPartOK] at h
  | bool b => simp [modelPartOK] at h
  | int n => simp [modelPartOK] at h
  | str s => simp [modelPartOK] at h
  | list xs => simp [modelPartOK] at h

theorem foldE_ok {α : Type} {f : α → PyVal → Except PyErr α} {p : PyVal → Bool}
    (hstep : ∀ a x, p x = true → ∃ b, f a x = .ok b) (xs : List PyVal) :
    ∀ a : α, xs.all p = true → ∃ b, foldE f a xs = .ok b := by
  induction xs with
  | nil => intro a _; exact ⟨a, rfl⟩
  | cons x xs ih =>
    intro a hall
    simp only [List.all_cons, Bool.and_eq_true] at hall
    obtain ⟨b, hb⟩ := hstep a x hall.1
    obtain ⟨c, hc⟩ := ih b hall.2
    exact ⟨c, by simp [foldE, hb, hc]⟩

theorem exceptIsOk_exists {α : Type} {x : Except PyErr α} (h : exceptIsOk x = true) :
    ∃ b, x = .ok b := by
  cases x with
  | ok b => exact ⟨b, rfl⟩
  | error e => simp [exceptIsOk] at h

theorem processCtx_ok (acc : List PyVal) (ctx : PyVal) (h : ctxOK ctx = true) :
    exceptIsOk (processCtx acc ctx) = true := by
  cases ctx with
  | dict kvs =>
    simp only [ctxOK] at h
    cases hl : dlookup kvs "text" with
    | none => simp [processCtx, mkCitation, hl, pySlice200, exceptIsOk]
    | some v =>
      rw [hl] at h
      cases v with
      | str s => simp [processCtx, mkCitation, hl, pySlice200, exceptIsOk]
      | list xs => simp [processCtx, mkCitation, hl, pySlice200, exceptIsOk]
      | none => simp at h
      | bool b => simp at h
      | int n => simp at h
      | dict d => simp at h
  | none => rfl
  | bool b => rfl
  | int n => rfl
  | str s => rfl
  | list xs => rfl

theorem procCitePart_ok (acc : List PyVal) (part : PyVal) (h : userPartOK part = true) :
    exceptIsOk (procCitePartWith processCtx acc part) = true := by
  cases part with
  | dict kvs =>
    simp only [userPartOK] at h
    cases hfr : dlookup kvs "function_response" with
    | none => simp [procCitePartWith, pyContains, hfr, exceptIsOk]
    | some fr =>
      rw [hfr] at h
      cases fr with
      | dict fkvs =>
        simp only [frOK] at h
        cases hresp : dlookup fkvs "response" with
        | none => simp [procCitePartWith, pyContains, pySubscr, hfr, hresp, exceptIsOk]
        | some resp =>
          cases resp with
          | dict rkvs =>
            simp only [hresp] at h
            cases hctx : dlookup rkvs "contexts" with
            | none =>
              simp [procCitePartWith, pyContains, pySubscr, pyIter, hfr, hresp, hctx,
                foldE, exceptIsOk]
            | some cv =>
              cases cv with
              | list ctxs =>
                simp only [hctx] at h
                obtain ⟨acc', ha⟩ := foldE_ok
                  (fun a x hx => exceptIsOk_exists (processCtx_ok a x hx)) ctxs acc h
                simp [procCitePartWith, pyContains, pySubscr, pyIter, hfr, hresp, hctx,
                  ha, exceptIsOk]
              | none => simp [hctx] at h
              | bool b => simp [hctx] at h
              | int n => simp [hctx] at h
              | str s => simp [hctx] at h
              | dict d => simp [hctx] at h
          | none => simp [procCitePartWith, pyContains, pySubscr, hfr, hresp, exceptIsOk]
          | bool b => simp [procCitePartWith, pyContains, pySubscr, hfr, hresp, exceptIsOk]
          | int n => simp [procCitePartWith, pyContains, pySubscr, hfr, hresp, exceptIsOk]
          | str s => simp [procCitePartWith, pyContains, pySubscr, hfr, hresp, exceptIsOk]
          | list xs => simp [procCitePartWith, pyContains, pySubscr, hfr, hresp, exceptIsOk]
      | none => simp [frOK] at h
      | bool b => simp [frOK] at h
      | int n => simp [frOK] at h
      | str s => simp [frOK] at h
      | list xs => simp [frOK] at h
  | none => simp [userPartOK] at h
  | bool b => simp [userPartOK] at h
  | int n => simp [userPartOK] at h
  | str s => simp [userPartOK] at h
  | list xs => simp [userPartOK] at h

theorem eventText_ok (ckvs : List (String × PyVal)) (h : contentOK (.dict ckvs) = true)
    (rt : PyVal) : exceptIsOk (eventText (.dict ckvs) rt) = true := by
  simp only [contentOK, Bool.and_eq_true] at h
  obtain ⟨hm, _⟩ := h
  simp only [eventText, pyGet]
  cases hrole : pyEqStr ((dlookup ckvs "role").getD .none) "model" with
  | false => simp [hrole, exceptIsOk]
  | true =>
    rw [hrole] at hm
    simp at hm
    cases hp : dlookup ckvs "parts" with
    | none => simp [hrole, pyContains, hp, exceptIsOk]
    | some pv =>
      rw [hp] at hm
      cases pv with
      | list parts =>
        simp only [partsFieldOK] at hm
        obtain ⟨rt', hrt⟩ := foldE_ok processPart_ok parts rt hm
        simp [hrole, pyContains, pySubscr, pyIter, hp, hrt, exceptIsOk]
      | none => simp [partsFieldOK] at hm
      | bool b => simp [partsFieldOK] at hm
      | int n => simp [partsFieldOK] at hm
      | str s => simp [partsFieldOK] at hm
      | dict d => simp [partsFieldOK] at hm

theorem eventCites_ok (ckvs : List (String × PyVal)) (h : contentOK (.dict ckvs) = true)
    (cs : List PyVal) : exceptIsOk (eventCitesWith processCtx (.dict ckvs) cs) = true := by
  simp only [contentOK, Bool.and_eq_true] at h
  obtain ⟨_, hu⟩ := h
  simp only [eventCitesWith, pyGet]
  cases hrole : pyEqStr ((dlookup ckvs "role").getD .none) "user" with
  | false => simp [hrole, exceptIsOk]
  | true =>
    rw [hrole] at hu
    simp at hu
    cases hp : dlookup ckvs "parts" with
    | none => simp [hrole, pyContains, hp, exceptIsOk]
    | some pv =>
      rw [hp] at hu
      cases pv with
      | list parts =>
        simp only [partsFieldOK] at hu
        obtain ⟨cs', hcs⟩ := foldE_ok
          (fun a x hx => exceptIsOk_exists (procCitePart_ok a x hx)) parts cs hu
        simp [hrole, pyContains, pySubscr, pyIter, hp, hcs, exceptIsOk]
      | none => simp [partsFieldOK] at hu
      | bool b => simp [partsFieldOK] at hu
      | int n => simp [partsFieldOK] at hu
      | str s => simp [partsFieldOK] at hu
      | dict d => simp [partsFieldOK] at hu

theorem processEvent_ok (st : RState) (e : PyVal) (h : eventOK e = true) :
    exceptIsOk (processEvent st e) = true := by
  cases e with
  | dict ekvs =>
    simp only [eventOK] at h
    cases hc : dlookup ekvs "content" with
    | none => simp [processEvent, processEventWith, hc, exceptIsOk]
    | some content =>
      rw [hc] at h
      cases content with
      | dict ckvs =>
        obtain ⟨rt', hrt⟩ := exceptIsOk_exists (eventText_ok ckvs h st.response_text)
        obtain ⟨cs', hcs⟩ := exceptIsOk_exists (eventCites_ok ckvs h st.citations)
        simp [processEvent, processEventWith, hc, hrt, hcs, exceptIsOk]
      | none => simp [contentOK] at h
      | bool b => simp [contentOK] at h
      | int n => simp [contentOK] at h
      | str s => simp [contentOK] at h
      | list xs => simp [contentOK] at h
  | none => rfl
  | bool b => rfl
  | int n => rfl
  | str s => rfl
  | list xs => rfl

theorem reduce_ok (events : List PyVal) :
    ∀ st : RState, (∀ e ∈ events, eventOK e = true) →
      exceptIsOk (foldE processEvent st events) = true := by
  induction events with
  | nil => intro st _; rfl
  | cons e es ih =>
    intro st hall
    obtain ⟨st1, h1⟩ := exceptIsOk_exists (processEvent_ok st e (hall e (by simp)))
    have h2 := ih st1 (fun x hx => hall x (by simp [hx]))
    simp [foldE, h1, h2]

/-- The model-text accumulator after one event does not depend on which
per-context step the loop uses: the two copies share `eventText`
verbatim, and the citation branch never writes `response_text`. -/
theorem processEventWith_text_eq
    {pc pc' : List PyVal → PyVal → Except PyErr (List PyVal)}
    (s1 s2 : RState) (e : PyVal) (u1 u2 : RState)
    (hrt : s1.response_text = s2.response_text)
    (h1 : processEventWith pc s1 e = .ok u1)
    (h2 : processEventWith pc' s2 e = .ok u2) :
    u1.response_text = u2.response_text := by
  cases e with
  | dict ekvs =>
    simp only [processEventWith] at h1 h2
    cases hc : dlookup ekvs "content" with
    | none =>
      simp only [hc] at h1 h2
      injection h1 with h1'
      injection h2 with h2'
      subst h1'; subst h2'
      exact hrt
    | some content =>
      simp only [hc] at h1 h2
      rw [hrt] at h1
      cases ht : eventText content s2.response_text with
      | error err => rw [ht] at h1; simp at h1
      | ok rt =>
        rw [ht] at h1 h2
        cases hcs1 : eventCitesWith pc content s1.citations with
        | error e1 => rw [hcs1] at h1; simp at h1
        | ok cs1 =>
          rw [hcs1] at h1
          cases hcs2 : eventCitesWith pc' content s2.citations with
          | error e2 => rw [hcs2] at h2; simp at h2
          | ok cs2 =>
            rw [hcs2] at h2
            injection h1 with h1'
            injection h2 with h2'
            subst h1'; subst h2'
            rfl
  | none =>
    simp only [processEventWith] at h1 h2
    injection h1 with h1'; injection h2 with h2'
    subst h1'; subst h2'; exact hrt
  | bool b =>
    simp only [processEventWith] at h1 h2
    injection h1 with h1'; injection h2 with h2'
    subst h1'; subst h2'; exact hrt
  | int n =>
    simp only [processEventWith] at h1 h2
    injection h1 with h1'; injection h2 with h2'
    subst h1'; subst h2'; exact hrt
  | str s =>
    simp only [processEventWith] at h1 h2
    injection h1 with h1'; injection h2 with h2'
    subst h1'; subst h2'; exact hrt
  | list xs =>
    simp only [processEventWith] at h1 h2
    injection h1 with h1'; injection h2 with h2'
    subst h1'; subst h2'; exact hrt

/-- Folding the two loop copies from states with the same accumulated text
yields the same accumulated text whenever both complete. -/
theorem foldE_text_eq (es : List PyVal) :
    ∀ s1 s2 t1 t2 : RState, s1.response_text = s2.response_text →
      foldE processEvent s1 es = .ok t1 →
      foldE processEventSt s2 es = .ok t2 →
      t1.response_text = t2.response_text := by
  induction es with
  | nil =>
    intro s1 s2 t1 t2 h h1 h2
    simp only [foldE] at h1 h2
    injection h1 with h1'
    injection h2 with h2'
    subst h1'; subst h2'
    exact h
  | cons e es ih =>
    intro s1 s2 t1 t2 h h1 h2
    simp only [foldE] at h1 h2
    cases he1 : processEvent s1 e with
    | error err => rw [he1] at h1; simp at h1
    | ok u1 =>
      rw [he1] at h1
      cases he2 : processEventSt s2 e with
      | error err => rw [he2] at h2; simp at h2
      | ok u2 =>
        rw [he2] at h2
        exact ih u1 u2 t1 t2 (processEventWith_text_eq s1 s2 e u1 u2 h he1 he2) h1 h2

/-- Events that are not dictionaries, or dictionaries with no `content`
key. -/
def contentless : PyVal → Bool
  | .dict ekvs => (dlookup ekvs "content").isNone
  | _ => true

/-- The string `aaa...a` of length `n`. -/
def aChars (n : Nat) : String := String.mk (List.replicate n 'a')

/-- C1 counterexample: when the last model-authored text part is the empty
string, the output `response_text` is the fallback sentinel, not that
text, so the claim's universal form fails. -/
theorem c1_empty_last_text_cex :
    query_agent [mkModelTextEvent (.str "")] Option.none "s" =
      .ok ⟨.str "No response text found", [], [mkModelTextEvent (.str "")], "s"⟩ ∧
    PyVal.str "No response text found" ≠ PyVal.str "" :=
  ⟨rfl, by simp⟩

/-- C2 (amended): the loop skips, without raising, every event of the
tolerated shapes (`eventOK`): non-dictionaries, dictionaries without
`content`, and dictionaries whose `content` is a dictionary with
well-shaped `parts`/`function_response`/`contexts` fields. -/
theorem c2_tolerated_events_no_raise (events : List PyVal)
    (h : ∀ e ∈ events, eventOK e = true) :
    exceptIsOk (reduceEvents events) = true :=
  reduce_ok events initState h

/-- C2 witness: a mixed sequence of a non-dictionary event, a model-text
event and a tool-result event reduces without raising. -/
theorem c2_tolerated_events_no_raise_inst :
    exceptIsOk (reduceEvents [.int 3, mkModelTextEvent (.str "hi"),
      mkFuncRespEvent "user" [.dict [("text", .str "T")]]]) = true :=
  c2_tolerated_events_no_raise
    [.int 3, mkModelTextEvent (.str "hi"), mkFuncRespEvent "user" [.dict [("text", .str "T")]]]
    (by decide)

/-- C2 counterexample: an event whose `content` value is not a mapping is
not skipped — `content.get("role")` raises AttributeError, so the loop
does not complete. -/
theorem c2_nonmapping_content_raises_cex :
    reduceEvents [.dict [("content", .int 42)]] = .error .attributeError := rfl

/-- C3 (amended): the output citation list is exactly the concatenation,
in event-encounter order, of the per-event contributions (with no
de-duplication), and a **user-role** event carrying well-shaped contexts
in a function-response part contributes exactly their coercions in order.
-/
theorem c3_citations_concat_in_order :
    (∀ (events : List PyVal) (st : RState), reduceEvents events = .ok st →
      st.citations = (events.map eventCitesOf).flatten) ∧
    (∀ ps : List (String × String),
      eventCitesOf (mkFuncRespEvent "user" (ps.map mkTextCtx)) = ps.map coercedCite) := by
  constructor
  · intro events st h
    have hd := reduce_citations_decomp events initState st h
    simpa [initState] using hd
  · exact eventCitesOf_mkFuncResp

/-- C3 witness: the claim's concrete case — two function-response events
each carrying one context with identical text yield a 2-element citation
list (duplicates kept, in encounter order). -/
theorem c3_citations_concat_in_order_inst :
    (⟨.str "", [PyVal.dict [("source_uri", .str "RAG Corpus"), ("text", .str "T"),
                            ("distance", .int 0)],
                PyVal.dict [("source_uri", .str "RAG Corpus"), ("text", .str "T"),
                            ("distance", .int 0)]]⟩ : RState).citations =
      ([mkFuncRespEvent "user" [.dict [("text", .str "T")]],
        mkFuncRespEvent "user" [.dict [("text", .str "T")]]].map eventCitesOf).flatten :=
  c3_citations_concat_in_order.1
    [mkFuncRespEvent "user" [.dict [("text", .str "T")]],
     mkFuncRespEvent "user" [.dict [("text", .str "T")]]] _ rfl

/-- C3 counterexample: a function-response part carrying one context under
a **model**-role event contributes nothing — the output citation list is
empty rather than the 1-element concatenation the claim demands. -/
theorem c3_model_role_function_response_cex :
    reduceEvents [mkFuncRespEvent "model" [.dict [("text", .str "T")]]] = .ok ⟨.str "", []⟩ ∧
    ([] : List PyVal) ≠
      [PyVal.dict [("source_uri", .str "RAG Corpus"), ("text", .str "T"), ("distance", .int 0)]] :=
  ⟨rfl, by simp⟩

/-- C4: the `session_id` field of every result `query_agent` returns
equals the session id supplied to the reduction call, regardless of event
contents and of whether the transport failed. -/
theorem c4_session_id_threaded (collected : List PyVal) (failure : Option String)
    (sid : String) (r : QueryResult) (h : query_agent collected failure sid = .ok r) :
    r.session_id = sid := by
  cases failure with
  | some msg =>
    simp only [query_agent] at h
    injection h with h'
    rw [← h']
  | none =>
    simp only [query_agent, assembleResult] at h
    cases hr : reduceEvents collected with
    | error e => rw [hr] at h; simp at h
    | ok st =>
      rw [hr] at h
      injection h with h'
      rw [← h']

/-- C4 witness: the session id `"abc"` supplied to a reduction of the
empty event list is returned unchanged. -/
theorem c4_session_id_threaded_inst :
    (⟨.str "No response text found", [], [], "abc"⟩ : QueryResult).session_id = "abc" :=
  c4_session_id_threaded [] Option.none "abc" _ rfl

/-- C5: when the streaming call raises after a prefix of events was
collected, `query_agent` returns a well-formed result embedding the
exception message, with empty citations, exactly the collected prefix as
`events`, and the supplied session id; the exception is not re-raised. -/
theorem c5_transport_error_recovered (collected : List PyVal) (msg sid : String) :
    query_agent collected (Option.some msg) sid =
      .ok ⟨.str ("Error querying agent: " ++ msg), [], collected, sid⟩ := rfl

/-- C6: reducing an empty event sequence yields the fallback sentinel text
and an empty citation list. -/
theorem c6_empty_events_fallback (sid : String) :
    query_agent [] Option.none sid = .ok ⟨.str "No response text found", [], [], sid⟩ := rfl

/-- C8: an event that is not a mapping, or is a mapping without a
`content` key, leaves both accumulators unchanged and raises no error. -/
theorem c8_contentless_events_skipped (st : RState) (e : PyVal)
    (h : contentless e = true) : processEvent st e = .ok st := by
  cases e with
  | dict ekvs =>
    simp only [contentless, Option.isNone_iff_eq_none] at h
    simp [processEvent, processEventWith, h]
  | none => rfl
  | bool b => rfl
  | int n => rfl
  | str s => rfl
  | list xs => rfl

/-- C8 witness: a mapping without a `content` key leaves a non-trivial
state unchanged and raises nothing. -/
theorem c8_contentless_events_skipped_inst :
    processEvent ⟨.str "x", []⟩ (.dict [("foo", .none)]) = .ok ⟨.str "x", []⟩ :=
  c8_contentless_events_skipped ⟨.str "x", []⟩ (.dict [("foo", .none)]) rfl

/-- C9: when the accumulated text is falsy — in particular when the last
model-authored text part was the empty string — the returned response text
is the fallback sentinel, chosen by truthiness of the accumulator, not by
whether a model-text part was seen. -/
theorem c9_falsy_text_fallback (events : List PyVal) (sid : String) (st : RState)
    (hred : reduceEvents events = .ok st) (hfalsy : pyTruthy st.response_text = false) :
    query_agent events Option.none sid =
      .ok ⟨.str "No response text found", st.citations, events, sid⟩ := by
  simp only [query_agent, assembleResult, hred, hfalsy]
  simp

/-- C9 witness: a model text `"A"` followed by a model text `""` yields
the sentinel, although a model-text part was seen. -/
theorem c9_falsy_text_fallback_inst :
    query_agent [mkModelTextEvent (.str "A"), mkModelTextEvent (.str "")] Option.none "s" =
      .ok ⟨.str "No response text found", [],
           [mkModelTextEvent (.str "A"), mkModelTextEvent (.str "")], "s"⟩ :=
  c9_falsy_text_fallback [mkModelTextEvent (.str "A"), mkModelTextEvent (.str "")] "s"
    ⟨.str "", []⟩ rfl rfl

/-- C10: the two copies of the event-parsing loop — `query_agent`'s and
`send_prompt`'s — compute the same `response_text` accumulator (before the
fallback-sentinel substitution) on every event sequence both complete
on. -/
theorem c10_copies_agree_on_text (es : List PyVal) (st st' : RState)
    (h1 : reduceEvents es = .ok st) (h2 : reduceEventsSt es = .ok st') :
    st.response_text = st'.response_text :=
  foldE_text_eq es initState initState st st' rfl h1 h2

/-- C10 witness: on a tool-result event whose context has no `text` key
the two copies produce different citation lists but the same accumulated
response text. -/
theorem c10_copies_agree_on_text_inst :
    (⟨.str "", [PyVal.dict [("source_uri", .str "RAG Corpus"), ("text", .str ""),
                            ("distance", .int 0)]]⟩ : RState).response_text =
      (⟨.str "", []⟩ : RState).response_text :=
  c10_copies_agree_on_text [mkFuncRespEvent "user" [.dict []]]
    ⟨.str "", [PyVal.dict [("source_uri", .str "RAG Corpus"), ("text", .str ""),
               ("distance", .int 0)]]⟩ ⟨.str "", []⟩ rfl rfl

/-- The field `k` of a citation dictionary. -/
def citeField (c : PyVal) (k : String) : Option PyVal :=
  match c with
  | .dict kvs => dlookup kvs k
  | _ => Option.none

/-- C7: for every context dictionary appended to the citation list: the
appended citation is `mkCitation`'s output; a context with no
`source_uri` key gets the sentinel `"RAG Corpus"` whatever its text; a
string `text` longer than 200 characters is truncated to exactly its
first 200 characters whether or not `source_uri` is present; and every
appended citation whose `text` is a string has length at most 200. -/
theorem c7_citation_defaults_and_truncation :
    (∀ (acc : List PyVal) (kvs : List (String × PyVal)) (cs' : List PyVal) (c : PyVal),
       processCtx acc (.dict kvs) = .ok cs' → mkCitation kvs = .ok c →
       cs' = acc ++ [c]) ∧
    (∀ (kvs : List (String × PyVal)) (c : PyVal),
       mkCitation kvs = .ok c → dlookup kvs "source_uri" = Option.none →
       citeField c "source_uri" = Option.some (.str "RAG Corpus")) ∧
    (∀ (kvs : List (String × PyVal)) (c : PyVal) (s : String),
       mkCitation kvs = .ok c → dlookup kvs "text" = Option.some (.str s) →
       200 < s.length →
       citeField c "text" = Option.some (.str (strTake s 200)) ∧
       (strTake s 200).length = 200) ∧
    (∀ (kvs : List (String × PyVal)) (c : PyVal) (s : String),
       mkCitation kvs = .ok c → citeField c "text" = Option.some (.str s) →
       s.length ≤ 200) := by
  refine ⟨?_, ?_, ?_, ?_⟩
  · intro acc kvs cs' c h hmk
    simp only [processCtx, hmk] at h
    injection h with h'
    exact h'.symm
  · intro kvs c hmk hsu
    simp only [mkCitation] at hmk
    cases hsl : pySlice200 ((dlookup kvs "text").getD (.str "")) with
    | error e => rw [hsl] at hmk; simp at hmk
    | ok t =>
      rw [hsl] at hmk
      injection hmk with h'
      subst h'
      simp [citeField, dlookup, hsu]
  · intro kvs c s hmk htx hlong
    simp only [mkCitation, htx, Option.getD, pySlice200] at hmk
    injection hmk with h'
    subst h'
    refine ⟨by simp [citeField, dlookup], ?_⟩
    show (s.data.take 200).length = 200
    rw [List.length_take]
    have hdata : 200 < s.data.length := hlong
    omega
  · intro kvs c s hmk htf
    cases htx : dlookup kvs "text" with
    | none =>
      simp only [mkCitation, htx, Option.getD, pySlice200] at hmk
      injection hmk with h'
      subst h'
      simp only [citeField, dlookup] at htf
      simp at htf
      subst htf
      decide
    | some v =>
      cases v with
      | str s0 =>
        simp only [mkCitation, htx, Option.getD, pySlice200] at hmk
        injection hmk with h'
        subst h'
        simp only [citeField, dlookup] at htf
        simp at htf
        subst htf
        show (s0.data.take 200).length ≤ 200
        rw [List.length_take]
        omega
      | list xs =>
        simp only [mkCitation, htx, Option.getD, pySlice200] at hmk
        injection hmk with h'
        subst h'
        simp [citeField, dlookup] at htf
      | none => simp [mkCitation, htx, pySlice200] at hmk
      | bool b => simp [mkCitation, htx, pySlice200] at hmk
      | int n => simp [mkCitation, htx, pySlice200] at hmk
      | dict d => simp [mkCitation, htx, pySlice200] at hmk

/-- The citation built for the witness context `{text: 201 chars}`. -/
def cite201 : PyVal :=
  .dict [("source_uri", .str "RAG Corpus"),
         ("text", .str (strTake (aChars 201) 200)),
         ("distance", .int 0)]

set_option maxRecDepth 4000 in
/-- C7 witness: a context whose only key is a 201-character `text`
yields a citation with the sentinel source and the text truncated to
exactly 200 characters. -/
theorem c7_citation_defaults_and_truncation_inst :
    ([cite201] : List PyVal) = [] ++ [cite201] ∧
    citeField cite201 "source_uri" = Option.some (.str "RAG Corpus") ∧
    (citeField cite201 "text" = Option.some (.str (strTake (aChars 201) 200)) ∧
     (strTake (aChars 201) 200).length = 200) ∧
    (strTake (aChars 201) 200).length ≤ 200 :=
  ⟨c7_citation_defaults_and_truncation.1 [] [("text", .str (aChars 201))]
     [cite201] cite201 rfl rfl,
   c7_citation_defaults_and_truncation.2.1 [("text", .str (aChars 201))] cite201 rfl rfl,
   c7_citation_defaults_and_truncation.2.2.1 [("text", .str (aChars 201))] cite201
     (aChars 201) rfl rfl (by decide),
   c7_citation_defaults_and_truncation.2.2.2 [("text", .str (aChars 201))] cite201
     (strTake (aChars 201) 200) rfl rfl⟩

/-- The spec's reading of one part (§4: "for each part in `content.parts`
containing a `text` field, set `response_text` to that text"): a mapping
part with a `text` field records its value, anything else keeps the
previous record. -/
def partTextSpec (acc : Option PyVal) (part : PyVal) : Option PyVal :=
  match part with
  | .dict kvs =>
    match dlookup kvs "text" with
    | Option.some v => Option.some v
    | Option.none => acc
  | _ => acc

/-- The spec's reading of one event for the §3 invariant: a mapping event
whose `content` is a mapping with `role == "model"` and a list of parts
runs `partTextSpec` over them; any other event leaves the record alone. -/
def eventTextSpec (acc : Option PyVal) (e : PyVal) : Option PyVal :=
  match e with
  | .dict ekvs =>
    match dlookup ekvs "content" with
    | Option.some (.dict ckvs) =>
      if pyEqStr ((dlookup ckvs "role").getD .none) "model" then
        match dlookup ckvs "parts" with
        | Option.some (.list parts) => parts.foldl partTextSpec acc
        | _ => acc
      else acc
    | _ => acc
  | _ => acc

/-- The text of the last model-authored text part seen across the whole
event stream (`Option.none` when there is none) — the §3 invariant's
"last model-authored text part", written from the spec's words. -/
def lastModelTextSpec (events : List PyVal) : Option PyVal :=
  events.foldl eventTextSpec Option.none

theorem partTextSpec_shift (a : Option PyVal) (x : PyVal) :
    partTextSpec a x = match partTextSpec Option.none x with
                       | Option.some t => Option.some t
                       | Option.none => a := by
  cases x with
  | dict kvs =>
    simp only [partTextSpec]
    cases dlookup kvs "text" <;> simp
  | none => simp [partTextSpec]
  | bool b => simp [partTextSpec]
  | int n => simp [partTextSpec]
  | str s => simp [partTextSpec]
  | list xs => simp [partTextSpec]

/-- A last-write-wins fold started from `a` equals the fold started from
`Option.none`, falling back to `a` when nothing was written. -/
theorem foldl_shift {f : Option PyVal → PyVal → Option PyVal}
    (hf : ∀ a x, f a x = match f Option.none x with
                         | Option.some t => Option.some t
                         | Option.none => a)
    (xs : List PyVal) : ∀ a, xs.foldl f a =
      match xs.foldl f Option.none with
      | Option.some t => Option.some t
      | Option.none => a := by
  induction xs with
  | nil => intro a; simp
  | cons x xs ih =>
    intro a
    simp only [List.foldl_cons]
    rw [ih (f a x), ih (f Option.none x)]
    rw [hf a x]
    cases xs.foldl f Option.none with
    | some t => simp
    | none => cases f Option.none x <;> simp

theorem eventTextSpec_shift (a : Option PyVal) (e : PyVal) :
    eventTextSpec a e = match eventTextSpec Option.none e with
                        | Option.some t => Option.some t
                        | Option.none => a := by
  cases e with
  | dict ekvs =>
    simp only [eventTextSpec]
    cases hc : dlookup ekvs "content" with
    | none => simp
    | some content =>
      cases content with
      | dict ckvs =>
        by_cases hrole : pyEqStr ((dlookup ckvs "role").getD PyVal.none) "model" = true
        · simp only [hrole, if_true]
          cases hp : dlookup ckvs "parts" with
          | none => simp
          | some pv =>
            cases pv with
            | list parts => exact foldl_shift partTextSpec_shift parts a
            | none => simp
            | bool b => simp
            | int n => simp
            | str s => simp
            | dict d => simp
        · simp [hrole]
      | none => simp
      | bool b => simp
      | int n => simp
      | str s => simp
      | list xs => simp
  | none => simp [eventTextSpec]
  | bool b => simp [eventTextSpec]
  | int n => simp [eventTextSpec]
  | str s => simp [eventTextSpec]
  | list xs => simp [eventTextSpec]

/-- A string part never writes the accumulator on a completed run:
`"text" in part` true would make `part["text"]` raise TypeError. -/
theorem processPart_str (rt : PyVal) (s : String) :
    ∀ rt', processPart rt (.str s) = .ok rt' → rt' = rt := by
  intro rt' h
  simp only [processPart, pyContains] at h
  cases hb : strContains s "text" with
  | true => simp only [hb] at h; simp [pySubscr] at h
  | false => simp only [hb] at h; injection h with h'; exact h'.symm

/-- A list of string-shaped parts (characters of a string, keys of a
dictionary) leaves the accumulator unchanged on a completed run. -/
theorem foldE_processPart_strs (l : List PyVal) (hl : ∀ p ∈ l, ∃ s, p = PyVal.str s) :
    ∀ rt rt', foldE processPart rt l = .ok rt' → rt' = rt := by
  induction l with
  | nil => intro rt rt' h; injection h with h'; exact h'.symm
  | cons p ps ih =>
    intro rt rt' h
    obtain ⟨s, rfl⟩ := hl p (by simp)
    simp only [foldE] at h
    cases hp : processPart rt (.str s) with
    | error e => rw [hp] at h; simp at h
    | ok r1 =>
      rw [hp] at h
      have hr1 := processPart_str rt s r1 hp
      rw [hr1] at h
      exact ih (fun q hq => hl q (by simp [hq])) rt rt' h

/-- One part agrees with the spec's reading on completed runs. -/
theorem processPart_bridge (rt : PyVal) (p : PyVal) (rt' : PyVal)
    (h : processPart rt p = .ok rt') :
    rt' = (partTextSpec Option.none p).getD rt := by
  cases p with
  | dict kvs =>
    cases hl : dlookup kvs "text" with
    | none =>
      simp [processPart, pyContains, hl] at h
      simp [partTextSpec, hl, ← h]
    | some v =>
      simp [processPart, pyContains, pySubscr, hl] at h
      simp [partTextSpec, hl, ← h]
  | str s =>
    have := processPart_str rt s rt' h
    subst this
    simp [partTextSpec]
  | list xs =>
    simp only [processPart, pyContains] at h
    cases hb : xs.any (fun x => pyEqStr x "text") with
    | true => simp only [hb] at h; simp [pySubscr] at h
    | false =>
      simp only [hb] at h
      injection h with h'
      simp [partTextSpec, ← h']
  | none => simp [processPart, pyContains] at h
  | bool b => simp [processPart, pyContains] at h
  | int n => simp [processPart, pyContains] at h

/-- The parts loop agrees with the spec's last-write fold on completed
runs. -/
theorem foldE_processPart_bridge (parts : List PyVal) :
    ∀ rt rt', foldE processPart rt parts = .ok rt' →
      rt' = (parts.foldl partTextSpec Option.none).getD rt := by
  induction parts with
  | nil =>
    intro rt rt' h
    injection h with h'
    simp [← h']
  | cons p ps ih =>
    intro rt rt' h
    simp only [foldE] at h
    cases hp : processPart rt p with
    | error e => rw [hp] at h; simp at h
    | ok r1 =>
      rw [hp] at h
      have h1 := processPart_bridge rt p r1 hp
      have h2 := ih r1 rt' h
      simp only [List.foldl_cons]
      rw [foldl_shift partTextSpec_shift ps (partTextSpec Option.none p)]
      cases hz : ps.foldl partTextSpec Option.none with
      | some t =>
        rw [hz] at h2
        simpa using h2
      | none =>
        rw [hz] at h2
        simp only [Option.getD_none] at h2
        simpa [h1] using h2

/-- One event agrees with the spec's reading of the §3 invariant on
completed runs: its contribution to `response_text` is the last `text` of
its model-role parts, or the previous accumulator when it has none. -/
theorem processEvent_text_bridge (st0 : RState) (e : PyVal) (st1 : RState)
    (h : processEvent st0 e = .ok st1) :
    st1.response_text = (eventTextSpec Option.none e).getD st0.response_text := by
  cases e with
  | dict ekvs =>
    simp only [processEvent, processEventWith] at h
    cases hc : dlookup ekvs "content" with
    | none =>
      simp only [hc] at h
      injection h with h'
      subst h'
      simp [eventTextSpec, hc]
    | some content =>
      simp only [hc] at h
      cases ht : eventText content st0.response_text with
      | error err => rw [ht] at h; simp at h
      | ok rt1 =>
        rw [ht] at h
        cases hcs : eventCitesWith processCtx content st0.citations with
        | error err => rw [hcs] at h; simp at h
        | ok cs =>
          rw [hcs] at h
          injection h with h'
          subst h'
          cases content with
          | dict ckvs =>
            simp only [eventText, pyGet] at ht
            simp only [eventTextSpec, hc]
            by_cases hrole : pyEqStr ((dlookup ckvs "role").getD PyVal.none) "model" = true
            · simp only [hrole, if_true] at ht ⊢
              cases hp : dlookup ckvs "parts" with
              | none =>
                simp only [pyContains, hp, Option.isSome_none] at ht
                injection ht with ht'
                simp [hp, ht']
              | some pv =>
                simp only [pyContains, hp, Option.isSome_some, pySubscr] at ht
                cases pv with
                | list parts =>
                  simp only [pyIter] at ht
                  simpa [hp] using foldE_processPart_bridge parts st0.response_text rt1 ht
                | str s =>
                  simp only [pyIter] at ht
                  have hstrs : ∀ p ∈ s.data.map (fun ch => PyVal.str (String.mk [ch])),
                      ∃ s0, p = PyVal.str s0 := by
                    intro p hp'
                    simp only [List.mem_map] at hp'
                    obtain ⟨ch, _, rfl⟩ := hp'
                    exact ⟨_, rfl⟩
                  have hkeep := foldE_processPart_strs _ hstrs st0.response_text rt1 ht
                  simp [hp, hkeep]
                | dict kvs2 =>
                  simp only [pyIter] at ht
                  have hstrs : ∀ p ∈ kvs2.map (fun kv => PyVal.str kv.fst),
                      ∃ s0, p = PyVal.str s0 := by
                    intro p hp'
                    simp only [List.mem_map] at hp'
                    obtain ⟨kv, _, rfl⟩ := hp'
                    exact ⟨_, rfl⟩
                  have hkeep := foldE_processPart_strs _ hstrs st0.response_text rt1 ht
                  simp [hp, hkeep]
                | none => simp [pyIter] at ht
                | bool b => simp [pyIter] at ht
                | int n => simp [pyIter] at ht
            · simp only [hrole, if_false, if_neg hrole] at ht ⊢
              injection ht with ht'
              simp [ht']
          | none => simp [eventText, pyGet] at ht
          | bool b => simp [eventText, pyGet] at ht
          | int n => simp [eventText, pyGet] at ht
          | str s => simp [eventText, pyGet] at ht
          | list xs => simp [eventText, pyGet] at ht
  | none =>
    simp only [processEvent, processEventWith] at h
    injection h with h'
    subst h'
    simp [eventTextSpec]
  | bool b =>
    simp only [processEvent, processEventWith] at h
    injection h with h'
    subst h'
    simp [eventTextSpec]
  | int n =>
    simp only [processEvent, processEventWith] at h
    injection h with h'
    subst h'
    simp [eventTextSpec]
  | str s =>
    simp only [processEvent, processEventWith] at h
    injection h with h'
    subst h'
    simp [eventTextSpec]
  | list xs =>
    simp only [processEvent, processEventWith] at h
    injection h with h'
    subst h'
    simp [eventTextSpec]

/-- The whole parsing loop agrees with the spec's last-write fold on
completed runs. -/
theorem reduce_text_bridge (events : List PyVal) :
    ∀ st0 st : RState, foldE processEvent st0 events = .ok st →
      st.response_text = (events.foldl eventTextSpec Option.none).getD st0.response_text := by
  induction events with
  | nil =>
    intro st0 st h
    injection h with h'
    subst h'
    simp
  | cons e es ih =>
    intro st0 st h
    simp only [foldE] at h
    cases he : processEvent st0 e with
    | error err => rw [he] at h; simp at h
    | ok st1 =>
      rw [he] at h
      have h1 := processEvent_text_bridge st0 e st1 he
      have h2 := ih st1 st h
      simp only [List.foldl_cons]
      rw [foldl_shift eventTextSpec_shift es (eventTextSpec Option.none e)]
      cases hz : es.foldl eventTextSpec Option.none with
      | some t =>
        rw [hz] at h2
        simpa using h2
      | none =>
        rw [hz] at h2
        simp only [Option.getD_none] at h2
        simpa [h1] using h2

/-- C1 (amended): for every event sequence the parsing loop completes on,
the accumulated `response_text` equals the text of the **last**
model-authored text part seen across the whole sequence (the initial `""`
when there is none): the last occurrence overwrites all earlier ones,
nothing is concatenated, and later events without model text leave it
untouched.  The output `response_text` equals that last text whenever it
is truthy; a falsy last text — e.g. the empty string — is replaced by the
fallback sentinel (see the counterexample). -/
theorem c1_last_model_text_wins :
    (∀ (events : List PyVal) (st : RState), reduceEvents events = .ok st →
       st.response_text = (lastModelTextSpec events).getD (.str "")) ∧
    (∀ (events : List PyVal) (st : RState) (t : PyVal) (sid : String),
       reduceEvents events = .ok st → lastModelTextSpec events = Option.some t →
       pyTruthy t = true →
       query_agent events Option.none sid = .ok ⟨t, st.citations, events, sid⟩) := by
  have hmain : ∀ (events : List PyVal) (st : RState), reduceEvents events = .ok st →
      st.response_text = (lastModelTextSpec events).getD (.str "") := by
    intro events st h
    simpa [lastModelTextSpec, initState] using reduce_text_bridge events initState st h
  refine ⟨hmain, ?_⟩
  intro events st t sid hred hlast htruthy
  have hrt : st.response_text = t := by
    rw [hmain events st hred, hlast]
    rfl
  simp only [query_agent, assembleResult, hred, hrt, htruthy]
  simp

/-- C1 witness: the claim's concrete case extended with an earlier
overwritten text and a trailing tool-result event — the model text `"A"`
is overwritten by `"B"`, which then survives the trailing event. -/
theorem c1_last_model_text_wins_inst :
    query_agent [mkModelTextEvent (.str "A"), mkModelTextEvent (.str "B"),
                 mkFuncRespEvent "user" [.dict [("text", .str "T")]]] Option.none "s" =
      .ok ⟨.str "B",
           [.dict [("source_uri", .str "RAG Corpus"), ("text", .str (strTake "T" 200)),
                   ("distance", .int 0)]],
           [mkModelTextEvent (.str "A"), mkModelTextEvent (.str "B"),
            mkFuncRespEvent "user" [.dict [("text", .str "T")]]], "s"⟩ :=
  c1_last_model_text_wins.2
    [mkModelTextEvent (.str "A"), mkModelTextEvent (.str "B"),
     mkFuncRespEvent "user" [.dict [("text", .str "T")]]]
    ⟨.str "B", [.dict [("source_uri", .str "RAG Corpus"), ("text", .str (strTake "T" 200)),
                ("distance", .int 0)]]⟩
    (.str "B") "s" rfl rfl rfl
